import Mathlib

/-!
Verification of the vstream instrumentation layer: a shallow embedding of
lib/vstream.js and lib/stream-pipeline.js.  Counters are modelled as maps
from counter names to optional naturals (a key absent from the table is
`none`), the per-stage context as an optional `ProvenanceValue`, and the
fallible operations (the `assert-plus` contract checks of the source) as
`Except VsError` computations.  Machine-level mutation is expressed as
explicit state passing over the `TStage`, `LinkState` and `PipelineState`
records.
-/

namespace VStream

/-- Counter key `"ninputs"`, the literal used by `vsTransform` and
`ProvenanceValue.prototype.next` in the source. -/
def ninputsKey : String := "ninputs"

/-- Counter key `"noutputs"`, the literal used by `vsPush` in the source. -/
def noutputsKey : String := "noutputs"

/-- Name used for the concrete sample stages in the evaluation theorems. -/
def sampleName : String := "t1"

/-- Marshaling mode of a transform-instrumented stage: the three string
values `'unspecified'`, `'marshal'` and `'nomarshal'` of `vs_marshalmode`. -/
inductive MarshalMode
| unspecified
| marshal
| nomarshal
deriving DecidableEq

/-- One provenance history entry, as pushed by
`ProvenanceValue.prototype.next`: `{pvp_source, pvp_input}`. -/
structure ProvenanceEntry where
  pvp_source : String
  pvp_input : Nat
deriving DecidableEq

/-- A `ProvenanceValue`: a payload (`pv_value`, possibly `undefined`, hence
`Option`) together with its ordered provenance history. -/
structure ProvenanceValue (α : Type) where
  pv_value : Option α
  pv_provenance : List ProvenanceEntry
deriving DecidableEq

/-- A transform-instrumented stage: the `vs_*` fields installed by
`instrumentObject` (`vs_name`, `vs_counters`, `vs_context`) together with
the `vs_marshalmode` field installed by `instrumentTransform`.  The payload
type of values flowing through the stage is `α`. -/
structure TStage (α : Type) where
  vs_name : String
  vs_counters : String → Option Nat
  vs_context : Option (ProvenanceValue α)
  vs_marshalmode : MarshalMode

/-- The contract violations (assert-plus failures) of the source, plus the
fatal throw of `PipelineStream.prototype._read`. -/
inductive VsError
| reentrantTransform
| reentrantFlush
| pushWithoutContext
| unexpectedCallbackArgs
| unpipeDownstreamNotFound
| unpipeUpstreamNotFound
| pipelineReadOverflow
deriving DecidableEq

/-- State of a freshly instrumented transform stage: `instrumentObject`
(name set, counters `{}`, context `null`) followed by `instrumentTransform`
(`vs_marshalmode = 'unspecified'`). -/
def mkTransformStage (α : Type) (name : String) : TStage α where
  vs_name := name
  vs_counters := fun _ => none
  vs_context := none
  vs_marshalmode := MarshalMode.unspecified

/-- `vsCounterBump(name)`: initialize the counter to 0 if the key is
absent, then increment it; the combined effect maps the key to
`(old or 0) + 1` and leaves every other key untouched. -/
def vsCounterBump {α : Type} (s : TStage α) (name : String) : TStage α :=
  { s with vs_counters := fun k =>
      if k = name then some ((s.vs_counters name).getD 0 + 1)
      else s.vs_counters k }

/-- `ProvenanceValue.prototype.next(newvalue, source)`: copy the history
(`slice(0)`) and push `{pvp_source: source.vs_name, pvp_input:
source.vs_counters['ninputs'] || 0}`. -/
def ProvenanceValue.next {α : Type} (v : ProvenanceValue α) (newvalue : Option α)
    (source : TStage α) : ProvenanceValue α where
  pv_value := newvalue
  pv_provenance := v.pv_provenance ++
    [{ pvp_source := source.vs_name
       pvp_input := (source.vs_counters ninputsKey).getD 0 }]

/-- `ProvenanceValue.prototype.withSource(source)`: re-tag without changing
the payload. -/
def ProvenanceValue.withSource {α : Type} (v : ProvenanceValue α)
    (source : TStage α) : ProvenanceValue α :=
  v.next v.pv_value source

/-- What `vs_realpush` (the underlying engine's `push`) receives from the
instrumented `vsPush`: the `null` end-of-stream signal, a raw payload, or a
marshaled `ProvenanceValue`. -/
inductive EngineVal (α : Type)
| nullv
| raw (a : α)
| wrapped (pv : ProvenanceValue α)
deriving DecidableEq

/-- `vsPush(chunk)`: asserts `chunk === null || vs_context !== null`;
passes `null` straight through; otherwise bumps `noutputs`, commits an
`unspecified` marshal mode to `nomarshal`, and hands the engine either the
raw chunk (`nomarshal`) or `vs_context.next(chunk, this)` (`marshal`). -/
def vsPush {α : Type} (s : TStage α) (chunk : Option α) :
    Except VsError (TStage α × EngineVal α) :=
  match chunk with
  | none => Except.ok (s, EngineVal.nullv)
  | some c =>
    match s.vs_context with
    | none => Except.error VsError.pushWithoutContext
    | some ctx =>
      let s1 := vsCounterBump s noutputsKey
      let s2 := if s1.vs_marshalmode = MarshalMode.unspecified
        then { s1 with vs_marshalmode := MarshalMode.nomarshal }
        else s1
      if s2.vs_marshalmode = MarshalMode.nomarshal then
        Except.ok (s2, EngineVal.raw c)
      else
        Except.ok (s2, EngineVal.wrapped (ProvenanceValue.next ctx (some c) s2))

/-- Effect, on an upstream stage, of the `'pipe'` handler that
`instrumentTransform` installs on a downstream transform: when this stage
is connected as a source into an instrumented transform, an `unspecified`
marshal mode becomes `marshal`; otherwise nothing changes. -/
def onPipeConnect {α : Type} (upstream : TStage α) : TStage α :=
  if upstream.vs_marshalmode = MarshalMode.unspecified then
    { upstream with vs_marshalmode := MarshalMode.marshal }
  else upstream

/-- A chunk arriving at `vsTransform`: either a raw payload or an already
marshaled `ProvenanceValue` (the `chunk instanceof ProvenanceValue` test). -/
inductive VChunk (α : Type)
| raw (v : α)
| wrapped (pv : ProvenanceValue α)
deriving DecidableEq

/-- Completion of the underlying `_transform` logic, by number of callback
arguments: `callback()`, `callback(err)`, `callback(err, newchunk)`, or a
call with three or more arguments (which the proxy rejects). -/
inductive CbArgs (α : Type) (ε : Type)
| zero
| one (err : Option ε)
| two (err : Option ε) (newchunk : Option α)
| many
deriving DecidableEq

/-- The sequence of `this.push(...)` calls the underlying `_transform` or
`_flush` logic performs before completing, threaded through `vsPush`. -/
def runPushes {α : Type} :
    TStage α → List (Option α) → Except VsError (TStage α × List (EngineVal α))
  | s, [] => Except.ok (s, [])
  | s, c :: rest =>
    match vsPush s c with
    | Except.error e => Except.error e
    | Except.ok (s', out) =>
      match runPushes s' rest with
      | Except.error e => Except.error e
      | Except.ok (s'', outs) => Except.ok (s'', out :: outs)

/-- The incoming context `vsTransform` computes: a pre-existing
`ProvenanceValue` is kept, a raw chunk is wrapped fresh with empty
history. -/
def augmentChunk {α : Type} : VChunk α → ProvenanceValue α
  | VChunk.wrapped pv => pv
  | VChunk.raw v => { pv_value := some v, pv_provenance := [] }

/-- The stage state in force while the underlying `_transform` logic runs:
`ninputs` bumped and `vs_context` set to the augmented chunk. -/
def vsTransformEnter {α : Type} (s : TStage α) (chunk : VChunk α) : TStage α :=
  { vsCounterBump s ninputsKey with vs_context := some (augmentChunk chunk) }

/-- Completion handling of `vsTransform`'s wrapped callback: rejects
completions with three or more arguments, pushes the optional single
result when no error was signalled, clears the context and forwards at
most the error argument. -/
def vsTransformFinish {α ε : Type} (s2 : TStage α) (outs : List (EngineVal α)) :
    CbArgs α ε → Except VsError (TStage α × List (EngineVal α) × Option ε)
  | CbArgs.many => Except.error VsError.unexpectedCallbackArgs
  | CbArgs.zero => Except.ok ({ s2 with vs_context := none }, outs, none)
  | CbArgs.one err => Except.ok ({ s2 with vs_context := none }, outs, err)
  | CbArgs.two (some e) _ =>
    Except.ok ({ s2 with vs_context := none }, outs, some e)
  | CbArgs.two none nc =>
    match vsPush s2 nc with
    | Except.error e => Except.error e
    | Except.ok (s3, out) =>
      Except.ok ({ s3 with vs_context := none }, outs ++ [out], none)

/-- `vsTransform(chunk, _, callback)`: asserts `vs_context === null`; wraps
the chunk, bumps `ninputs`, sets the context, runs the underlying logic
(its pushes), and hands its completion to `vsTransformFinish`. -/
def vsTransform {α ε : Type} (s : TStage α) (chunk : VChunk α)
    (pushes : List (Option α)) (cb : CbArgs α ε) :
    Except VsError (TStage α × List (EngineVal α) × Option ε) :=
  match s.vs_context with
  | some _ => Except.error VsError.reentrantTransform
  | none =>
    match runPushes (vsTransformEnter s chunk) pushes with
    | Except.error e => Except.error e
    | Except.ok (s2, outs) => vsTransformFinish s2 outs cb

/-- `vsFlush(callback)`: asserts `vs_context === null`, installs a
payload-less `ProvenanceValue` as context, runs the underlying `_flush`
(its pushes), and clears the context. -/
def vsFlush {α : Type} (s : TStage α) (pushes : List (Option α)) :
    Except VsError (TStage α × List (EngineVal α)) :=
  match s.vs_context with
  | some _ => Except.error VsError.reentrantFlush
  | none =>
    match runPushes
        { s with vs_context := some { pv_value := none, pv_provenance := [] } }
        pushes with
    | Except.error e => Except.error e
    | Except.ok (s2, outs) => Except.ok ({ s2 with vs_context := none }, outs)

/-- The `'warn'` event payload emitted by `vsWarn`: `(context, kind, err)`. -/
structure WarnEvent (α : Type) (ε : Type) where
  we_context : Option (ProvenanceValue α)
  we_kind : String
  we_err : ε
deriving DecidableEq

/-- `vsWarn(err, kind)`: derives the sourced context
(`vs_context.withSource(this)`, or `null` when no context is active),
bumps the `kind` counter, and emits `('warn', context, kind, err)`. -/
def vsWarn {α ε : Type} (s : TStage α) (err : ε) (kind : String) :
    TStage α × WarnEvent α ε :=
  let context : Option (ProvenanceValue α) :=
    match s.vs_context with
    | none => none
    | some ctx => some (ctx.withSource s)
  (vsCounterBump s kind, { we_context := context, we_kind := kind, we_err := err })

/-- Events observable at a single transform-instrumented stage, for the
marshal-mode trace arguments: being piped into an instrumented transform,
a push, a counter bump, a warning. -/
inductive StageEvent (α : Type)
| evConnect
| evPush (chunk : Option α)
| evBump (k : String)
| evWarn (k : String)

/-- One event step on a stage.  A push that fails its context assertion
aborts the program before mutating anything, so the state is kept. -/
def stepStage {α : Type} (s : TStage α) : StageEvent α → TStage α
  | StageEvent.evConnect => onPipeConnect s
  | StageEvent.evPush ch =>
    match vsPush s ch with
    | Except.ok r => r.1
    | Except.error _ => s
  | StageEvent.evBump k => vsCounterBump s k
  | StageEvent.evWarn k => (vsWarn s () k).1

/-- Run a sequence of stage events. -/
def runStage {α : Type} (s : TStage α) (evs : List (StageEvent α)) : TStage α :=
  evs.foldl stepStage s

/-- Iterated `vsCounterBump` on a single key. -/
def bumpCounterN {α : Type} (k : String) : Nat → TStage α → TStage α
  | 0, s => s
  | Nat.succ n, s => vsCounterBump (bumpCounterN k n s) k

/-- The pipeline-linkage state maintained by `instrumentStream`: the
`vs_downstreams` and `vs_upstreams` lists of every stage, with stages
identified by naturals.  A never-connected stage has empty lists, which
also covers auto-instrumentation of fresh stages on first connection. -/
structure LinkState where
  downs : Nat → List Nat
  ups : Nat → List Nat

/-- The linkage state in which no connection has been recorded. -/
def emptyLinks : LinkState where
  downs := fun _ => []
  ups := fun _ => []

/-- `vsRecordPipe(downstream)` called on `u` with argument `d`: appends `d`
to `u.vs_downstreams` and `u` to `d.vs_upstreams`. -/
def vsRecordPipe (st : LinkState) (u d : Nat) : LinkState where
  downs := fun x => if x = u then st.downs u ++ [d] else st.downs x
  ups := fun x => if x = d then st.ups d ++ [u] else st.ups x

/-- `vsRecordUnpipe(downstream)` called on `u` with argument `d`: finds the
first occurrence of `d` in `u.vs_downstreams` (asserting it exists), then
the first occurrence of `u` in `d.vs_upstreams` (asserting it exists), and
splices exactly one entry out of each list. -/
def vsRecordUnpipe (st : LinkState) (u d : Nat) : Except VsError LinkState :=
  if d ∈ st.downs u then
    if u ∈ st.ups d then
      Except.ok
        { downs := fun x => if x = u then (st.downs u).erase d else st.downs x
          ups := fun x => if x = d then (st.ups d).erase u else st.ups x }
    else Except.error VsError.unpipeUpstreamNotFound
  else Except.error VsError.unpipeDownstreamNotFound

/-- A linkage-recording operation: `vsRecordPipe` or `vsRecordUnpipe`. -/
inductive LinkOp
| pipe (u d : Nat)
| unpipe (u d : Nat)

/-- One linkage operation.  A failed `vsRecordUnpipe` aborts on its
assertion before mutating either list, so the state is kept. -/
def linkStep (st : LinkState) : LinkOp → LinkState
  | LinkOp.pipe u d => vsRecordPipe st u d
  | LinkOp.unpipe u d =>
    match vsRecordUnpipe st u d with
    | Except.ok st' => st'
    | Except.error _ => st

/-- Run a sequence of linkage operations. -/
def runLinkOps (st : LinkState) (ops : List LinkOp) : LinkState :=
  ops.foldl linkStep st

/-- State of a `PipelineStream` as seen by its `_read` method: the data the
tail stage currently has available, the length and high-watermark of the
composite's own outward readable buffer, and the `ps_needreadable` flag. -/
structure PipelineState (α : Type) where
  ps_tailbuf : List α
  rbufLength : Nat
  highWaterMark : Nat
  ps_needreadable : Bool
deriving DecidableEq

/-- The read loop of `PipelineStream.prototype._read`: repeatedly read one
unit from the tail; on `null` set `ps_needreadable` and stop; otherwise
push it outward (growing the outward buffer) and stop as soon as `push`
reports no more room (buffer length at or past the high-watermark).
Returns the remaining tail data, the new buffer length, and whether
`ps_needreadable` was set. -/
def readLoop {α : Type} : List α → Nat → Nat → List α × Nat × Bool
  | [], len, _ => ([], len, true)
  | _c :: rest, len, hwm =>
    if len + 1 < hwm then readLoop rest (len + 1) hwm
    else (rest, len + 1, false)

/-- `PipelineStream.prototype._read()`: throws when the outward readable
buffer already holds more than `highWaterMark + 1` units; otherwise runs
the read loop against the tail stage. -/
def pipelineRead {α : Type} (s : PipelineState α) :
    Except VsError (PipelineState α) :=
  if s.highWaterMark + 1 < s.rbufLength then
    Except.error VsError.pipelineReadOverflow
  else
    match readLoop s.ps_tailbuf s.rbufLength s.highWaterMark with
    | (tail', len', sawNull) =>
      Except.ok { s with
        ps_tailbuf := tail'
        rbufLength := len'
        ps_needreadable := if sawNull then true else s.ps_needreadable }

/-- Sample stage with an active context and mode `marshal` (as the first
test in the repository forces with `t1.vs_marshalmode = 'marshal'`). -/
def c2Stage : TStage Nat :=
  { vs_name := sampleName
    vs_counters := fun _ => none
    vs_context := some { pv_value := some 7, pv_provenance := [] }
    vs_marshalmode := MarshalMode.marshal }

/-- Sample stage with an active context that has committed to
`nomarshal`. -/
def c1Stage : TStage Nat :=
  { vs_name := sampleName
    vs_counters := fun _ => none
    vs_context := some { pv_value := some 1, pv_provenance := [] }
    vs_marshalmode := MarshalMode.nomarshal }

/-- Sample stage stuck inside a processing call (context active). -/
def c4BusyStage : TStage Nat :=
  { vs_name := sampleName
    vs_counters := fun _ => none
    vs_context := some { pv_value := some 9, pv_provenance := [] }
    vs_marshalmode := MarshalMode.unspecified }

/-- Sample idle stage (no context active). -/
def c4Stage : TStage Nat := mkTransformStage Nat sampleName

/-- Sample stage with an active context, for the warning theorem. -/
def c8Stage : TStage Nat :=
  { vs_name := sampleName
    vs_counters := fun _ => none
    vs_context := some { pv_value := some 4, pv_provenance := [] }
    vs_marshalmode := MarshalMode.unspecified }

/-- Sample linkage state: stage 0 piped into 1, stage 2 piped into 3. -/
def c7State : LinkState := vsRecordPipe (vsRecordPipe emptyLinks 0 1) 2 3

/-- The linkage state after unrecording the 0 → 1 connection of
`c7State`. -/
def c7After : LinkState := (vsRecordUnpipe c7State 0 1).toOption.getD emptyLinks

/-- Sample pipeline state whose outward buffer is past the tolerated
bound. -/
def c6Full : PipelineState Nat :=
  { ps_tailbuf := [1, 2, 3], rbufLength := 7, highWaterMark := 2
    ps_needreadable := false }

/-- Sample pipeline state with an empty outward buffer. -/
def c6Norm : PipelineState Nat :=
  { ps_tailbuf := [1, 2, 3], rbufLength := 0, highWaterMark := 2
    ps_needreadable := false }

/-- Bumping a counter reads back as the old value (or 0) plus one. -/
theorem vsCounterBump_same {α : Type} (s : TStage α) (k : String) :
    (vsCounterBump s k).vs_counters k = some ((s.vs_counters k).getD 0 + 1) := by
  simp [vsCounterBump]

/-- Bumping a counter leaves every other key untouched. -/
theorem vsCounterBump_other {α : Type} (s : TStage α) {k j : String} (h : j ≠ k) :
    (vsCounterBump s k).vs_counters j = s.vs_counters j := by
  simp [vsCounterBump, h]

/-- Iterated bumps of an initially absent key count exactly the calls. -/
theorem bumpCounterN_count {α : Type} (k : String) (s : TStage α)
    (h : s.vs_counters k = none) (N : Nat) :
    (bumpCounterN k N s).vs_counters k = if N = 0 then none else some N := by
  induction N with
  | zero => simpa [bumpCounterN] using h
  | succ n ih =>
    rw [bumpCounterN, vsCounterBump_same, ih]
    cases n with
    | zero => simp
    | succ m => simp

/-- Claim C9: on a freshly instrumented object every counter key is absent
(not present with value zero), and N consecutive `vsCounterBump(k)` calls,
starting from any state in which `k` is absent, leave the counter table
mapping `k` to exactly N. -/
theorem counter_bump_spec (α : Type) (k : String) :
    (∀ name, (mkTransformStage α name).vs_counters k = none)
    ∧ (∀ (s : TStage α) (N : Nat), s.vs_counters k = none → N ≠ 0 →
        (bumpCounterN k N s).vs_counters k = some N) := by
  refine ⟨fun _ => rfl, fun s N h hN => ?_⟩
  rw [bumpCounterN_count k s h N]
  simp [hN]

/-- Evaluation of `counter_bump_spec` at a fresh stage and N = 3. -/
theorem counter_bump_app :
    (mkTransformStage Nat sampleName).vs_counters ninputsKey = none
    ∧ (bumpCounterN ninputsKey 3 (mkTransformStage Nat sampleName)).vs_counters
        ninputsKey = some 3 := by
  obtain ⟨h1, h2⟩ := counter_bump_spec Nat ninputsKey
  exact ⟨h1 sampleName, h2 _ 3 (h1 sampleName) (by decide)⟩

/-- Claim C3: `next(p, s)` on a ProvenanceValue `v` returns a new value
whose payload is `p` and whose history is `v`'s history with exactly one
entry appended, naming `s` and carrying `s`'s current `ninputs` counter
value (0 when that counter is absent).  `v` itself is unchanged: the
embedding of `next` is a pure function of `v` whose result stores an
appended copy of the history, never a mutation of it. -/
theorem provenance_next_spec {α : Type} (v : ProvenanceValue α) (p : Option α)
    (s : TStage α) :
    (v.next p s).pv_value = p
    ∧ (v.next p s).pv_provenance.dropLast = v.pv_provenance
    ∧ (v.next p s).pv_provenance.getLast? =
        some { pvp_source := s.vs_name
               pvp_input := (s.vs_counters ninputsKey).getD 0 }
    ∧ (v.next p s).pv_provenance.length = v.pv_provenance.length + 1
    ∧ (s.vs_counters ninputsKey = none →
        (v.next p s).pv_provenance.getLast? =
          some { pvp_source := s.vs_name, pvp_input := 0 }) := by
  refine ⟨rfl, ?_, ?_, ?_, fun h => ?_⟩
  · simp [ProvenanceValue.next]
  · simp [ProvenanceValue.next]
  · simp [ProvenanceValue.next]
  · simp [ProvenanceValue.next, h]

/-- Evaluation of `provenance_next_spec` on a concrete value and a fresh
stage (whose `ninputs` counter is absent). -/
theorem provenance_next_app :
    (ProvenanceValue.next { pv_value := some 1, pv_provenance := [] } (some 2)
        (mkTransformStage Nat sampleName)).pv_value = some 2
    ∧ (ProvenanceValue.next { pv_value := some 1, pv_provenance := [] } (some 2)
        (mkTransformStage Nat sampleName)).pv_provenance.getLast? =
        some { pvp_source := sampleName, pvp_input := 0 } := by
  obtain ⟨h1, _, _, _, h5⟩ :=
    provenance_next_spec { pv_value := some 1, pv_provenance := [] } (some 2)
      (mkTransformStage Nat sampleName)
  exact ⟨h1, h5 rfl⟩

/-- Claim C10: `vsPush` with a non-null chunk asserts that a context is
active; with no active context the call is a contract violation; `push`
of `null` succeeds in any state and passes the signal through. -/
theorem vsPush_context_precondition {α : Type} (s : TStage α) :
    (∀ c : α, s.vs_context = none →
      vsPush s (some c) = Except.error VsError.pushWithoutContext)
    ∧ vsPush s none = Except.ok (s, EngineVal.nullv) := by
  refine ⟨fun c h => ?_, rfl⟩
  simp [vsPush, h]

/-- Mode update performed by a successful `vsPush`: unchanged for `null`,
`unspecified` committed to `nomarshal` for a non-null chunk. -/
theorem vsPush_mode {α : Type} {s s' : TStage α} {ch : Option α}
    {out : EngineVal α} (h : vsPush s ch = Except.ok (s', out)) :
    s'.vs_marshalmode =
      match ch with
      | none => s.vs_marshalmode
      | some _ => if s.vs_marshalmode = MarshalMode.unspecified
          then MarshalMode.nomarshal else s.vs_marshalmode := by
  obtain ⟨nm, cnt, cx, m⟩ := s
  cases ch with
  | none => cases h; rfl
  | some c =>
    cases cx with
    | none => simp [vsPush] at h
    | some ctx =>
      cases m <;> simp [vsPush, vsCounterBump] at h <;>
        obtain ⟨h1, -⟩ := h <;> subst h1 <;> rfl

/-- A successful `vsPush` with a committed mode keeps the mode. -/
theorem vsPush_mode_ne {α : Type} {s s' : TStage α} {ch : Option α}
    {out : EngineVal α} (h : vsPush s ch = Except.ok (s', out))
    (hm : s.vs_marshalmode ≠ MarshalMode.unspecified) :
    s'.vs_marshalmode = s.vs_marshalmode := by
  have := vsPush_mode h
  cases ch with
  | none => exact this
  | some c => rw [this]; simp [hm]

/-- A `vsPush` on a `nomarshal` stage hands the engine the raw chunk. -/
theorem vsPush_nomarshal_raw {α : Type} {s s' : TStage α} {c : α}
    {out : EngineVal α} (hm : s.vs_marshalmode = MarshalMode.nomarshal)
    (h : vsPush s (some c) = Except.ok (s', out)) : out = EngineVal.raw c := by
  obtain ⟨nm, cnt, cx, m⟩ := s
  cases cx with
  | none => simp [vsPush] at h
  | some ctx =>
    have hm' : m = MarshalMode.nomarshal := hm
    subst hm'
    simp [vsPush, vsCounterBump] at h
    exact h.2.symm

/-- A committed mode survives any sequence of pushes of the underlying
processing logic. -/
theorem runPushes_mode {α : Type} :
    ∀ (l : List (Option α)) (s s' : TStage α) (outs : List (EngineVal α)),
      runPushes s l = Except.ok (s', outs) →
      s.vs_marshalmode ≠ MarshalMode.unspecified →
      s'.vs_marshalmode = s.vs_marshalmode
  | [], s, s', outs, h, _ => by cases h; rfl
  | c :: rest, s, s', outs, h, hm => by
    simp only [runPushes] at h
    split at h
    next e heq => cases h
    next s1 out1 heq =>
      split at h
      next e2 heq2 => cases h
      next s2 outs2 heq2 =>
        simp only [Except.ok.injEq, Prod.mk.injEq] at h
        obtain ⟨h1, -⟩ := h
        subst h1
        have hstep := vsPush_mode_ne heq hm
        have := runPushes_mode rest s1 s2 outs2 heq2 (by rw [hstep]; exact hm)
        rw [this, hstep]

/-- One stage event keeps a committed mode. -/
theorem stepStage_mode {α : Type} (s : TStage α) (e : StageEvent α)
    (h : s.vs_marshalmode ≠ MarshalMode.unspecified) :
    (stepStage s e).vs_marshalmode = s.vs_marshalmode := by
  cases e with
  | evConnect => simp [stepStage, onPipeConnect, h]
  | evPush ch =>
    simp only [stepStage]
    cases hp : vsPush s ch with
    | error e => rfl
    | ok r => exact vsPush_mode_ne hp h
  | evBump k => rfl
  | evWarn k => rfl

/-- A committed mode survives any sequence of stage events. -/
theorem runStage_mode {α : Type} :
    ∀ (evs : List (StageEvent α)) (s : TStage α),
      s.vs_marshalmode ≠ MarshalMode.unspecified →
      (runStage s evs).vs_marshalmode = s.vs_marshalmode
  | [], _, _ => rfl
  | e :: rest, s, h => by
    have h1 := stepStage_mode s e h
    have h2 := runStage_mode rest (stepStage s e) (by rw [h1]; exact h)
    simp only [runStage, List.foldl] at h2 ⊢
    rw [h2, h1]

/-- A successful `vsTransform` keeps a committed mode (its only mode
effects are the pushes of the underlying logic). -/
theorem vsTransform_mode {α ε : Type} {s s' : TStage α} {chunk : VChunk α}
    {pushes : List (Option α)} {cb : CbArgs α ε} {outs : List (EngineVal α)}
    {e : Option ε}
    (h : vsTransform s chunk pushes cb = Except.ok (s', outs, e))
    (hm : s.vs_marshalmode ≠ MarshalMode.unspecified) :
    s'.vs_marshalmode = s.vs_marshalmode := by
  obtain ⟨nm, cnt, cx, m⟩ := s
  cases cx with
  | some ctx => cases h
  | none =>
    simp only [vsTransform] at h
    split at h
    next er heq => cases h
    next s2 outs2 heq =>
      have hs2 : s2.vs_marshalmode = m :=
        runPushes_mode pushes _ s2 outs2 heq hm
      cases cb with
      | zero =>
        simp only [vsTransformFinish, Except.ok.injEq, Prod.mk.injEq] at h
        obtain ⟨h1, -⟩ := h
        subst h1
        exact hs2
      | one err =>
        simp only [vsTransformFinish, Except.ok.injEq, Prod.mk.injEq] at h
        obtain ⟨h1, -⟩ := h
        subst h1
        exact hs2
      | many => cases h
      | two err nc =>
        cases err with
        | some er =>
          simp only [vsTransformFinish, Except.ok.injEq, Prod.mk.injEq] at h
          obtain ⟨h1, -⟩ := h
          subst h1
          exact hs2
        | none =>
          simp only [vsTransformFinish] at h
          split at h
          next er heq2 => cases h
          next s3 out3 heq2 =>
            simp only [Except.ok.injEq, Prod.mk.injEq] at h
            obtain ⟨h1, -⟩ := h
            subst h1
            have := vsPush_mode_ne heq2 (by rw [hs2]; exact hm)
            show s3.vs_marshalmode = m
            rw [this, hs2]

/-- A successful `vsFlush` keeps a committed mode. -/
theorem vsFlush_mode {α : Type} {s s' : TStage α} {pushes : List (Option α)}
    {outs : List (EngineVal α)}
    (h : vsFlush s pushes = Except.ok (s', outs))
    (hm : s.vs_marshalmode ≠ MarshalMode.unspecified) :
    s'.vs_marshalmode = s.vs_marshalmode := by
  obtain ⟨nm, cnt, cx, m⟩ := s
  cases cx with
  | some ctx => cases h
  | none =>
    simp only [vsFlush] at h
    split at h
    next er heq => cases h
    next s2 outs2 heq =>
      simp only [Except.ok.injEq, Prod.mk.injEq] at h
      obtain ⟨h1, -⟩ := h
      subst h1
      exact runPushes_mode pushes
        ⟨nm, cnt, some { pv_value := none, pv_provenance := [] }, m⟩
        s2 outs2 heq hm

/-- Claim C1: the marshal mode is a three-state machine pinned at first
opportunity.  A fresh transform-instrumented stage is `unspecified`; being
connected as a source into an instrumented transform turns `unspecified`
into `marshal`; the first successful non-null push turns `unspecified`
into `nomarshal`; every other modelled operation (null pushes, counter
bumps, warnings, connections or pushes on a committed stage, whole
transform or flush calls on a committed stage) leaves the mode unchanged;
and a stage committed to `nomarshal` emits raw (provenance-free) values
after any subsequent event sequence, connections included. -/
theorem marshal_mode_negotiation (α : Type) :
    (∀ name, (mkTransformStage α name).vs_marshalmode = MarshalMode.unspecified)
    ∧ (∀ s : TStage α, s.vs_marshalmode = MarshalMode.unspecified →
        (onPipeConnect s).vs_marshalmode = MarshalMode.marshal)
    ∧ (∀ s : TStage α, s.vs_marshalmode ≠ MarshalMode.unspecified →
        onPipeConnect s = s)
    ∧ (∀ (s s' : TStage α) (c : α) (out : EngineVal α),
        vsPush s (some c) = Except.ok (s', out) →
        s.vs_marshalmode = MarshalMode.unspecified →
        s'.vs_marshalmode = MarshalMode.nomarshal)
    ∧ (∀ (s s' : TStage α) (ch : Option α) (out : EngineVal α),
        vsPush s ch = Except.ok (s', out) →
        s.vs_marshalmode ≠ MarshalMode.unspecified →
        s'.vs_marshalmode = s.vs_marshalmode)
    ∧ (∀ (s s' : TStage α) (out : EngineVal α),
        vsPush s none = Except.ok (s', out) →
        s'.vs_marshalmode = s.vs_marshalmode)
    ∧ (∀ (s : TStage α) (k : String),
        (vsCounterBump s k).vs_marshalmode = s.vs_marshalmode)
    ∧ (∀ (s : TStage α) (k : String),
        ((vsWarn s () k).1).vs_marshalmode = s.vs_marshalmode)
    ∧ (∀ (s s' : TStage α) (chunk : VChunk α) (pushes : List (Option α))
        (cb : CbArgs α Unit) (outs : List (EngineVal α)) (e : Option Unit),
        vsTransform s chunk pushes cb = Except.ok (s', outs, e) →
        s.vs_marshalmode ≠ MarshalMode.unspecified →
        s'.vs_marshalmode = s.vs_marshalmode)
    ∧ (∀ (s s' : TStage α) (pushes : List (Option α))
        (outs : List (EngineVal α)),
        vsFlush s pushes = Except.ok (s', outs) →
        s.vs_marshalmode ≠ MarshalMode.unspecified →
        s'.vs_marshalmode = s.vs_marshalmode)
    ∧ (∀ (s : TStage α) (evs : List (StageEvent α)),
        s.vs_marshalmode ≠ MarshalMode.unspecified →
        (runStage s evs).vs_marshalmode = s.vs_marshalmode)
    ∧ (∀ (s s' : TStage α) (evs : List (StageEvent α)) (c : α)
        (out : EngineVal α),
        s.vs_marshalmode = MarshalMode.nomarshal →
        vsPush (runStage s evs) (some c) = Except.ok (s', out) →
        out = EngineVal.raw c) := by
  refine ⟨fun _ => rfl, fun s h => ?_, fun s h => ?_, ?_, ?_, ?_,
    fun _ _ => rfl, fun _ _ => rfl, ?_, ?_, ?_, ?_⟩
  · simp [onPipeConnect, h]
  · simp [onPipeConnect, h]
  · intro s s' c out h hm
    have := vsPush_mode h
    rw [this]
    simp [hm]
  · intro s s' ch out h hm
    exact vsPush_mode_ne h hm
  · intro s s' out h
    exact vsPush_mode h
  · intro s s' chunk pushes cb outs e h hm
    exact vsTransform_mode h hm
  · intro s s' pushes outs h hm
    exact vsFlush_mode h hm
  · intro s evs hm
    exact runStage_mode evs s hm
  · intro s s' evs c out hm hp
    have hr : (runStage s evs).vs_marshalmode = MarshalMode.nomarshal := by
      rw [runStage_mode evs s (by rw [hm]; exact by intro hc; cases hc), hm]
    exact vsPush_nomarshal_raw hr hp

/-- Evaluation of `marshal_mode_negotiation`: a fresh stage connected as a
source becomes `marshal`; a `nomarshal` stage stays `nomarshal` across a
later connection and still emits the raw chunk. -/
theorem marshal_mode_negotiation_app :
    (onPipeConnect (mkTransformStage Nat sampleName)).vs_marshalmode =
      MarshalMode.marshal
    ∧ (runStage c1Stage [StageEvent.evConnect]).vs_marshalmode =
      MarshalMode.nomarshal
    ∧ (vsPush (runStage c1Stage [StageEvent.evConnect]) (some 5)).map
        (fun r => r.2) = Except.ok (EngineVal.raw 5) := by
  obtain ⟨-, h2, -, -, -, -, -, -, -, -, h11, h12⟩ :=
    marshal_mode_negotiation Nat
  have hx : vsPush (runStage c1Stage [StageEvent.evConnect]) (some 5) =
      Except.ok (vsCounterBump c1Stage noutputsKey, EngineVal.raw 5) := rfl
  have hmode := h11 c1Stage [StageEvent.evConnect] (by decide)
  refine ⟨h2 _ rfl, by rw [hmode]; rfl, ?_⟩
  have hout := h12 c1Stage (vsCounterBump c1Stage noutputsKey)
    [StageEvent.evConnect] 5 (EngineVal.raw 5) rfl hx
  rw [hx, hout]
  rfl

/-- Claim C2: `vsPush(null)` passes the signal through to the engine
unmodified without touching the `noutputs` counter; `vsPush` of a non-null
chunk under an active context bumps `noutputs` by one and hands the engine
the raw chunk when the (possibly just-committed) mode is `nomarshal`, or
the `ProvenanceValue` built by the active context's `next(chunk, this)`
when the mode is `marshal`. -/
theorem vsPush_emission {α : Type} (s : TStage α) :
    vsPush s none = Except.ok (s, EngineVal.nullv)
    ∧ (∀ (c : α) (ctx : ProvenanceValue α), s.vs_context = some ctx →
        ∃ s' : TStage α,
          s'.vs_counters noutputsKey =
            some ((s.vs_counters noutputsKey).getD 0 + 1)
          ∧ (s.vs_marshalmode ≠ MarshalMode.marshal →
              vsPush s (some c) = Except.ok (s', EngineVal.raw c)
              ∧ s'.vs_marshalmode = MarshalMode.nomarshal)
          ∧ (s.vs_marshalmode = MarshalMode.marshal →
              vsPush s (some c) = Except.ok (s',
                EngineVal.wrapped
                  { pv_value := some c
                    pv_provenance := ctx.pv_provenance ++
                      [{ pvp_source := s.vs_name
                         pvp_input := (s.vs_counters ninputsKey).getD 0 }] }))) := by
  obtain ⟨nm, cnt, cx, m⟩ := s
  refine ⟨rfl, fun c ctx h => ?_⟩
  cases cx with
  | none => exact absurd h (by simp)
  | some ctx0 =>
    have hctx : ctx0 = ctx := by simpa using h
    subst hctx
    cases m with
    | unspecified =>
      refine ⟨vsCounterBump ⟨nm, cnt, some ctx0, MarshalMode.nomarshal⟩ noutputsKey,
        vsCounterBump_same _ _, fun _ => ⟨?_, rfl⟩, fun hm => by cases hm⟩
      simp [vsPush, vsCounterBump]
    | nomarshal =>
      refine ⟨vsCounterBump ⟨nm, cnt, some ctx0, MarshalMode.nomarshal⟩ noutputsKey,
        vsCounterBump_same _ _, fun _ => ⟨?_, rfl⟩, fun hm => by cases hm⟩
      simp [vsPush, vsCounterBump]
    | marshal =>
      refine ⟨vsCounterBump ⟨nm, cnt, some ctx0, MarshalMode.marshal⟩ noutputsKey,
        vsCounterBump_same _ _, fun hm => absurd rfl hm, fun _ => ?_⟩
      simp [vsPush, vsCounterBump, ProvenanceValue.next, ninputsKey, noutputsKey]

/-- Evaluation of `vsPush_emission` at a concrete marshal-mode stage with
an active context: the output is wrapped and `noutputs` reads 1. -/
theorem vsPush_emission_app :
    (vsPush c2Stage (some 5)).map
        (fun r => (r.1.vs_counters noutputsKey, r.2)) =
      Except.ok (some 1,
        EngineVal.wrapped
          { pv_value := some 5,
            pv_provenance := [{ pvp_source := sampleName, pvp_input := 0 }] }) := by
  obtain ⟨s', hcnt, _, hmar⟩ :=
    (vsPush_emission c2Stage).2 5 { pv_value := some 7, pv_provenance := [] } rfl
  rw [hmar rfl]
  simp only [Except.map]
  rw [hcnt]
  rfl

/-- Claim C8: `vsWarn(err, kind)` always bumps the counter named `kind`,
and emits a `warn` event carrying `(context, kind, err)` where the context
is the stage's current context re-tagged with this stage as the most
recent history entry when a context is active, and empty (`none`) when no
context is active. -/
theorem vsWarn_spec {α ε : Type} (s : TStage α) (err : ε) (kind : String) :
    ((vsWarn s err kind).1.vs_counters kind =
      some ((s.vs_counters kind).getD 0 + 1))
    ∧ ((vsWarn s err kind).2.we_kind = kind)
    ∧ ((vsWarn s err kind).2.we_err = err)
    ∧ (s.vs_context = none → (vsWarn s err kind).2.we_context = none)
    ∧ (∀ ctx : ProvenanceValue α, s.vs_context = some ctx →
        (vsWarn s err kind).2.we_context =
          some { pv_value := ctx.pv_value
                 pv_provenance := ctx.pv_provenance ++
                   [{ pvp_source := s.vs_name
                      pvp_input := (s.vs_counters ninputsKey).getD 0 }] }) := by
  obtain ⟨nm, cnt, cx, m⟩ := s
  refine ⟨vsCounterBump_same _ _, rfl, rfl, fun h => ?_, fun ctx h => ?_⟩
  · cases cx with
    | none => rfl
    | some ctx0 => exact absurd h (by simp)
  · cases cx with
    | none => exact absurd h (by simp)
    | some ctx0 =>
      have hctx : ctx0 = ctx := by simpa using h
      subst hctx
      simp [vsWarn, ProvenanceValue.withSource, ProvenanceValue.next]

/-- Evaluation of `vsWarn_spec` at a concrete stage with an active
context. -/
theorem vsWarn_app :
    ((vsWarn c8Stage () noutputsKey).1.vs_counters noutputsKey = some 1)
    ∧ ((vsWarn c8Stage () noutputsKey).2.we_context =
        some { pv_value := some 4
               pv_provenance := [{ pvp_source := sampleName, pvp_input := 0 }] }) := by
  obtain ⟨h1, _, _, _, h5⟩ := vsWarn_spec c8Stage () noutputsKey
  refine ⟨by simpa [c8Stage] using h1, ?_⟩
  have := h5 { pv_value := some 4, pv_provenance := [] } rfl
  simpa [c8Stage] using this

/-- Under an active context `vsPush` always succeeds, and it touches
neither the context nor the `ninputs` counter. -/
theorem vsPush_ok_of_context {α : Type} (s : TStage α) (ch : Option α)
    (pv : ProvenanceValue α) (h : s.vs_context = some pv) :
    ∃ (s' : TStage α) (out : EngineVal α),
      vsPush s ch = Except.ok (s', out) ∧ s'.vs_context = some pv ∧
      s'.vs_counters ninputsKey = s.vs_counters ninputsKey := by
  obtain ⟨nm, cnt, cx, m⟩ := s
  have hcx : cx = some pv := by simpa using h
  subst hcx
  cases ch with
  | none => exact ⟨_, _, rfl, rfl, rfl⟩
  | some c =>
    have hne : ninputsKey ≠ noutputsKey := by decide
    cases m with
    | unspecified => exact ⟨_, _, rfl, rfl, vsCounterBump_other _ hne⟩
    | nomarshal => exact ⟨_, _, rfl, rfl, vsCounterBump_other _ hne⟩
    | marshal => exact ⟨_, _, rfl, rfl, vsCounterBump_other _ hne⟩

/-- Under an active context every push sequence of the underlying logic
succeeds, and it touches neither the context nor the `ninputs` counter. -/
theorem runPushes_ok {α : Type} (pv : ProvenanceValue α) :
    ∀ (l : List (Option α)) (s : TStage α), s.vs_context = some pv →
      ∃ (s' : TStage α) (outs : List (EngineVal α)),
        runPushes s l = Except.ok (s', outs) ∧ s'.vs_context = some pv ∧
        s'.vs_counters ninputsKey = s.vs_counters ninputsKey
  | [], s, h => ⟨s, [], rfl, h, rfl⟩
  | c :: rest, s, h => by
    obtain ⟨s1, out1, hp, hc1, hn1⟩ := vsPush_ok_of_context s c pv h
    obtain ⟨s2, outs2, hr, hc2, hn2⟩ := runPushes_ok pv rest s1 hc1
    refine ⟨s2, out1 :: outs2, ?_, hc2, by rw [hn2, hn1]⟩
    simp only [runPushes, hp, hr]

/-- Claim C4: a processing call on a stage whose context is already set is
a contract violation; otherwise the `ninputs` counter is bumped by exactly
one, the context in force during the underlying processing logic is the
incoming `ProvenanceValue` (kept when the chunk was already wrapped,
freshly wrapped with empty history when it was raw), the context is
cleared before the call returns, and a completion that signals more than
one result value (three or more callback arguments) fails. -/
theorem vsTransform_contract (α ε : Type) :
    (∀ (s : TStage α) (chunk : VChunk α) (pushes : List (Option α))
        (cb : CbArgs α ε) (ctx : ProvenanceValue α), s.vs_context = some ctx →
        vsTransform s chunk pushes cb = Except.error VsError.reentrantTransform)
    ∧ (∀ (s : TStage α) (chunk : VChunk α),
        (vsTransformEnter s chunk).vs_context = some (augmentChunk chunk)
        ∧ (vsTransformEnter s chunk).vs_counters ninputsKey =
            some ((s.vs_counters ninputsKey).getD 0 + 1))
    ∧ (∀ pv : ProvenanceValue α, augmentChunk (VChunk.wrapped pv) = pv)
    ∧ (∀ v : α, augmentChunk (VChunk.raw v) =
        { pv_value := some v, pv_provenance := [] })
    ∧ (∀ (s : TStage α) (chunk : VChunk α) (pushes : List (Option α)),
        s.vs_context = none →
        vsTransform s chunk pushes (CbArgs.many (α := α) (ε := ε)) =
          Except.error VsError.unexpectedCallbackArgs)
    ∧ (∀ (s : TStage α) (chunk : VChunk α) (pushes : List (Option α))
        (cb : CbArgs α ε), s.vs_context = none → cb ≠ CbArgs.many →
        ∃ (s' : TStage α) (outs : List (EngineVal α)) (e : Option ε),
          vsTransform s chunk pushes cb = Except.ok (s', outs, e)
          ∧ s'.vs_context = none
          ∧ s'.vs_counters ninputsKey =
              some ((s.vs_counters ninputsKey).getD 0 + 1)) := by
  refine ⟨?_, ?_, fun _ => rfl, fun _ => rfl, ?_, ?_⟩
  · intro s chunk pushes cb ctx h
    obtain ⟨nm, cnt, cx, m⟩ := s
    have hcx : cx = some ctx := by simpa using h
    subst hcx
    rfl
  · intro s chunk
    exact ⟨rfl, vsCounterBump_same s ninputsKey⟩
  · intro s chunk pushes h
    obtain ⟨nm, cnt, cx, m⟩ := s
    have hcx : cx = none := by simpa using h
    subst hcx
    obtain ⟨s2, outs2, hr, -, -⟩ := runPushes_ok (augmentChunk chunk) pushes
      (vsTransformEnter ⟨nm, cnt, none, m⟩ chunk) rfl
    simp only [vsTransform, hr, vsTransformFinish]
  · intro s chunk pushes cb h hcb
    obtain ⟨nm, cnt, cx, m⟩ := s
    have hcx : cx = none := by simpa using h
    subst hcx
    obtain ⟨s2, outs2, hr, hc2, hn2⟩ := runPushes_ok (augmentChunk chunk) pushes
      (vsTransformEnter ⟨nm, cnt, none, m⟩ chunk) rfl
    have hn2' : s2.vs_counters ninputsKey =
        some ((cnt ninputsKey).getD 0 + 1) :=
      hn2.trans (vsCounterBump_same ⟨nm, cnt, none, m⟩ ninputsKey)
    cases cb with
    | many => exact absurd rfl hcb
    | zero =>
      exact ⟨{ s2 with vs_context := none }, outs2, none,
        by simp only [vsTransform, hr, vsTransformFinish], rfl, hn2'⟩
    | one err =>
      exact ⟨{ s2 with vs_context := none }, outs2, err,
        by simp only [vsTransform, hr, vsTransformFinish], rfl, hn2'⟩
    | two err nc =>
      cases err with
      | some e =>
        exact ⟨{ s2 with vs_context := none }, outs2, some e,
          by simp only [vsTransform, hr, vsTransformFinish], rfl, hn2'⟩
      | none =>
        obtain ⟨s3, out3, hp3, -, hn3⟩ :=
          vsPush_ok_of_context s2 nc (augmentChunk chunk) hc2
        exact ⟨{ s3 with vs_context := none }, outs2 ++ [out3], none,
          by simp only [vsTransform, hr, vsTransformFinish, hp3], rfl,
          hn3.trans hn2'⟩

/-- Evaluation of `vsTransform_contract`: a re-entrant call on a busy
stage fails, and a normal call on an idle stage ends with a clear context
and `ninputs` at 1. -/
theorem vsTransform_contract_app :
    vsTransform c4BusyStage (VChunk.raw 3) []
        (CbArgs.zero (α := Nat) (ε := Unit)) =
      Except.error VsError.reentrantTransform
    ∧ (vsTransform c4Stage (VChunk.raw 3) []
          (CbArgs.zero (α := Nat) (ε := Unit))).map
        (fun r => (r.1.vs_context, r.1.vs_counters ninputsKey)) =
      Except.ok (none, some 1) := by
  obtain ⟨h1, -, -, -, -, h6⟩ := vsTransform_contract Nat Unit
  refine ⟨h1 c4BusyStage (VChunk.raw 3) [] CbArgs.zero
    { pv_value := some 9, pv_provenance := [] } rfl, ?_⟩
  obtain ⟨s', outs, e, heq, hctx, hcnt⟩ :=
    h6 c4Stage (VChunk.raw 3) [] CbArgs.zero rfl (by simp)
  rw [heq]
  simp only [Except.map]
  rw [hctx, hcnt]
  rfl

/-- The read loop grows the outward buffer to at most one unit past the
high-watermark when it starts at or below the watermark. -/
theorem readLoop_le {α : Type} :
    ∀ (buf : List α) (len hwm : Nat), len ≤ hwm →
      (readLoop buf len hwm).2.1 ≤ hwm + 1
  | [], len, hwm, h => by
    simpa [readLoop] using Nat.le_succ_of_le h
  | c :: rest, len, hwm, h => by
    simp only [readLoop]
    split
    next hlt => exact readLoop_le rest (len + 1) hwm (Nat.le_of_lt hlt)
    next hge => simpa using Nat.succ_le_succ h

/-- Claim C6: `PipelineStream.prototype._read` throws (instead of pulling
any data) whenever the outward readable buffer already holds more than
`highWaterMark + 1` units; and when invoked under the engine's normal
scheduling (buffer at or below the watermark) it succeeds and leaves the
outward buffer no larger than `highWaterMark + 1`. -/
theorem pipelineRead_backpressure {α : Type} (s : PipelineState α) :
    (s.highWaterMark + 1 < s.rbufLength →
      pipelineRead s = Except.error VsError.pipelineReadOverflow)
    ∧ (s.rbufLength ≤ s.highWaterMark →
      ∃ s' : PipelineState α, pipelineRead s = Except.ok s'
        ∧ s'.rbufLength ≤ s.highWaterMark + 1) := by
  constructor
  · intro h
    simp [pipelineRead, h]
  · intro h
    have hnot : ¬ s.highWaterMark + 1 < s.rbufLength := by omega
    refine ⟨{ s with
        ps_tailbuf := (readLoop s.ps_tailbuf s.rbufLength s.highWaterMark).1,
        rbufLength := (readLoop s.ps_tailbuf s.rbufLength s.highWaterMark).2.1,
        ps_needreadable :=
          if (readLoop s.ps_tailbuf s.rbufLength s.highWaterMark).2.2 then true
          else s.ps_needreadable }, ?_, ?_⟩
    · simp only [pipelineRead, if_neg hnot]
    · exact readLoop_le s.ps_tailbuf s.rbufLength s.highWaterMark h

/-- Evaluation of `pipelineRead_backpressure`: an over-full buffer throws,
an empty buffer ends at most one past the watermark. -/
theorem pipelineRead_backpressure_app :
    pipelineRead c6Full = Except.error VsError.pipelineReadOverflow
    ∧ (pipelineRead c6Norm).map (fun r => decide (r.rbufLength ≤ 3)) =
      Except.ok true := by
  refine ⟨(pipelineRead_backpressure c6Full).1 (by decide), ?_⟩
  obtain ⟨s', heq, hle⟩ := (pipelineRead_backpressure c6Norm).2 (by decide)
  rw [heq]
  simp only [Except.map]
  have : c6Norm.highWaterMark + 1 = 3 := rfl
  rw [this] at hle
  simp [hle]

/-- The mutual-linkage counting invariant: every stage `a` occurs in `b`'s
upstream list exactly as often as `b` occurs in `a`'s downstream list. -/
def mutualCounts (st : LinkState) : Prop :=
  ∀ a b : Nat, (st.ups b).count a = (st.downs a).count b

/-- `vsRecordPipe` preserves the mutual-linkage counting invariant. -/
theorem mutualCounts_pipe {st : LinkState} (h : mutualCounts st) (u d : Nat) :
    mutualCounts (vsRecordPipe st u d) := by
  intro a b
  simp only [vsRecordPipe]
  by_cases hb : b = d <;> by_cases ha : a = u <;>
    simp [hb, ha, List.count_append, List.count_singleton', h a b, h a d,
      h u b, h u d]

/-- A successful `vsRecordUnpipe` preserves the mutual-linkage counting
invariant. -/
theorem mutualCounts_unpipe {st st' : LinkState} (h : mutualCounts st)
    {u d : Nat} (heq : vsRecordUnpipe st u d = Except.ok st') :
    mutualCounts st' := by
  simp only [vsRecordUnpipe] at heq
  split at heq
  next hd =>
    split at heq
    next hu =>
      simp only [Except.ok.injEq] at heq
      subst heq
      intro a b
      by_cases hb : b = d <;> by_cases ha : a = u <;>
        simp [hb, ha, List.count_erase, h a b, h a d, h u b, h u d,
          Ne.symm]
    next hu => cases heq
  next hd => cases heq

/-- Every linkage operation preserves the mutual-linkage counting
invariant. -/
theorem mutualCounts_step {st : LinkState} (h : mutualCounts st)
    (op : LinkOp) : mutualCounts (linkStep st op) := by
  cases op with
  | pipe u d => exact mutualCounts_pipe h u d
  | unpipe u d =>
    simp only [linkStep]
    split
    next st' heq => exact mutualCounts_unpipe h heq
    next heq => exact h

/-- Any run of linkage operations preserves the invariant. -/
theorem mutualCounts_run : ∀ (ops : List LinkOp) (st : LinkState),
    mutualCounts st → mutualCounts (runLinkOps st ops)
  | [], _, h => h
  | op :: rest, st, h =>
    mutualCounts_run rest (linkStep st op) (mutualCounts_step h op)

/-- Claim C5: in every state reachable from the unlinked state by any
sequence of `vsRecordPipe` and `vsRecordUnpipe` operations, a stage `a`
occurs in stage `b`'s upstreams list exactly as many times as `b` occurs
in `a`'s downstreams list — linkage entries are added and removed as
mutual pairs. -/
theorem linkage_mutual_counts (ops : List LinkOp) (a b : Nat) :
    ((runLinkOps emptyLinks ops).ups b).count a =
      ((runLinkOps emptyLinks ops).downs a).count b :=
  mutualCounts_run ops emptyLinks (fun _ _ => rfl) a b

/-- Claim C7: `vsRecordUnpipe(upstream, downstream)` fails exactly when
the pair is not linked in both directions, and on success removes exactly
one (the first) matching entry from each of the two lists, leaving every
other entry of both lists, and every other stage's lists, unchanged. -/
theorem vsRecordUnpipe_spec (st : LinkState) (u d : Nat) :
    ((vsRecordUnpipe st u d).isOk = false ↔
      (d ∉ st.downs u ∨ u ∉ st.ups d))
    ∧ (∀ st' : LinkState, vsRecordUnpipe st u d = Except.ok st' →
        (∃ l1 l2, d ∉ l1 ∧ st.downs u = l1 ++ d :: l2
          ∧ st'.downs u = l1 ++ l2)
        ∧ (∃ l1 l2, u ∉ l1 ∧ st.ups d = l1 ++ u :: l2
          ∧ st'.ups d = l1 ++ l2)
        ∧ (∀ a, a ≠ u → st'.downs a = st.downs a)
        ∧ (∀ b, b ≠ d → st'.ups b = st.ups b)) := by
  constructor
  · constructor
    · intro hfail
      by_contra hc
      push_neg at hc
      obtain ⟨h1, h2⟩ := hc
      simp [vsRecordUnpipe, h1, h2, Except.isOk, Except.toBool] at hfail
    · intro hor
      rcases hor with h1 | h1
      · simp [vsRecordUnpipe, h1, Except.isOk, Except.toBool]
      · by_cases hd : d ∈ st.downs u
        · simp [vsRecordUnpipe, hd, h1, Except.isOk, Except.toBool]
        · simp [vsRecordUnpipe, hd, Except.isOk, Except.toBool]
  · intro st' heq
    simp only [vsRecordUnpipe] at heq
    split at heq
    next hd =>
      split at heq
      next hu =>
        simp only [Except.ok.injEq] at heq
        subst heq
        refine ⟨?_, ?_, fun a ha => by simp [ha], fun b hb => by simp [hb]⟩
        · obtain ⟨l1, l2, hnot, hsplit, herase⟩ := List.exists_erase_eq hd
          exact ⟨l1, l2, hnot, hsplit, by simp [herase]⟩
        · obtain ⟨l1, l2, hnot, hsplit, herase⟩ := List.exists_erase_eq hu
          exact ⟨l1, l2, hnot, hsplit, by simp [herase]⟩
      next hu => cases heq
    next hd => cases heq

/-- Evaluation of `vsRecordUnpipe_spec`: unlinking an unrecorded pair
fails; unlinking `0 → 1` from `c7State` succeeds, empties the `0/1`
lists, and leaves stage 2's downstreams untouched. -/
theorem vsRecordUnpipe_app :
    (vsRecordUnpipe emptyLinks 0 1).isOk = false
    ∧ vsRecordUnpipe c7State 0 1 = Except.ok c7After
    ∧ c7After.downs 2 = c7State.downs 2
    ∧ c7After.downs 0 = [] := by
  refine ⟨(vsRecordUnpipe_spec emptyLinks 0 1).1.mpr (Or.inl (by decide)),
    rfl, ?_, rfl⟩
  exact ((vsRecordUnpipe_spec c7State 0 1).2 c7After rfl).2.2.1 2 (by decide)

/-- Evaluation of `vsPush_context_precondition` at a fresh idle stage. -/
theorem vsPush_context_app :
    vsPush (mkTransformStage Nat sampleName) (some 5) =
      Except.error VsError.pushWithoutContext
    ∧ vsPush (mkTransformStage Nat sampleName) none =
      Except.ok (mkTransformStage Nat sampleName, EngineVal.nullv) := by
  obtain ⟨h1, h2⟩ := vsPush_context_precondition (mkTransformStage Nat sampleName)
  exact ⟨h1 5 rfl, h2⟩

end VStream
